import Mathlib

/-!
Verification of the environment-sniffing core of the waitlist page:
the user-agent classifiers, the day-part bucketing, the synchronous
metadata capture and the best-effort geolocation enrichment
(`src/lib/metadata.ts`), plus the merge the submission handler performs
(`src/App.tsx`).  Strings are modelled as `List Char`; JS objects whose
key set matters are modelled as ordered association lists over a small
JS-value type.
-/

namespace Codegrey

/-- `startsWith s p` holds when `p` is as an initial segment of `s`
(character-list counterpart of a JS anchored literal match). -/
def startsWith : List Char → List Char → Bool
  | _, [] => true
  | [], _ :: _ => false
  | c :: cs, p :: ps => (c == p) && startsWith cs ps

/-- JS `String.prototype.includes`: `containsSub s p` holds when `p`
occurs contiguously somewhere in `s`. -/
def containsSub : List Char → List Char → Bool
  | [], p => p.isEmpty
  | c :: cs, p => startsWith (c :: cs) p || containsSub cs p

/-- Maximal leading run of decimal digits, the text a greedy `\d+` consumes. -/
def takeDigits : List Char → List Char
  | [] => []
  | c :: cs => if c.isDigit then c :: takeDigits cs else []

/-- First-match search for the regex `pat(\d+)` over a string, returning the
captured digit run: the pattern is tried at every position from the left, and
a position only matches when the literal `pat` is followed by at least one
digit, exactly as the JS regex engine behaves for
`ua.match(/Firefox\x2f(\d+)/)` and the other version patterns. -/
def findVerNum (pat : List Char) : List Char → Option (List Char)
  | [] => none
  | c :: cs =>
    if startsWith (c :: cs) pat then
      let d := takeDigits ((c :: cs).drop pat.length)
      if d.isEmpty then findVerNum pat cs else some d
    else findVerNum pat cs

/-- Attempt of the regex fragment `(\d+[._]\d+)` at the current position:
a digit run, then a literal period or underscore, then a second digit run;
the capture is the whole consumed text. -/
def parseMacVer (s : List Char) : Option (List Char) :=
  let d1 := takeDigits s
  if d1.isEmpty then none
  else
    match s.drop d1.length with
    | sep :: rest =>
      if sep == '.' || sep == '_' then
        let d2 := takeDigits rest
        if d2.isEmpty then none else some (d1 ++ sep :: d2)
      else none
    | [] => none

/-- First-match search for `Mac OS X (\d+[._]\d+)`: at each position the
literal `Mac OS X ` (with its trailing space) must be followed by a
parsable version token, else the search moves one character to the right. -/
def findMacVer : List Char → Option (List Char)
  | [] => none
  | c :: cs =>
    if startsWith (c :: cs) "Mac OS X ".data then
      match parseMacVer ((c :: cs).drop "Mac OS X ".data.length) with
      | some v => some v
      | none => findMacVer cs
    else findMacVer cs

/-- JS `str.replace(p, r)` with a plain-string pattern replaces only the
first occurrence; the source applies it with the one-character pattern
`_` and replacement `.`. -/
def replaceFirstUnderscore : List Char → List Char
  | [] => []
  | c :: cs => if c == '_' then '.' :: cs else c :: replaceFirstUnderscore cs

/-- `getBrowser` from `collectTechnicalMetadata` (metadata.ts lines 38-44):
ordered marker tests Firefox, Edg, Chrome, Safari, first match wins, each
branch extracting a version via its own `marker/(\d+)` pattern with
fallback `unknown`; no marker at all gives `Unknown`/`unknown`.
The result is the (name, version) pair. -/
def getBrowser (ua : List Char) : List Char × List Char :=
  if containsSub ua "Firefox".data then
    ("Firefox".data, (findVerNum "Firefox/".data ua).getD "unknown".data)
  else if containsSub ua "Edg".data then
    ("Edge".data, (findVerNum "Edg/".data ua).getD "unknown".data)
  else if containsSub ua "Chrome".data then
    ("Chrome".data, (findVerNum "Chrome/".data ua).getD "unknown".data)
  else if containsSub ua "Safari".data then
    ("Safari".data, (findVerNum "Version/".data ua).getD "unknown".data)
  else ("Unknown".data, "unknown".data)

/-- `getOS` from `collectTechnicalMetadata` (metadata.ts lines 47-55):
ordered substring tests Windows NT 10, Windows, Mac OS X (with version
extraction and first-underscore normalization), Linux, Android, then the
iOS family markers; default `Unknown`. -/
def getOS (ua : List Char) : List Char :=
  if containsSub ua "Windows NT 10".data then "Windows 10/11".data
  else if containsSub ua "Windows".data then "Windows".data
  else if containsSub ua "Mac OS X".data then
    "macOS ".data ++ ((findMacVer ua).map replaceFirstUnderscore).getD []
  else if containsSub ua "Linux".data then "Linux".data
  else if containsSub ua "Android".data then "Android".data
  else if containsSub ua "iOS".data || containsSub ua "iPhone".data
      || containsSub ua "iPad".data then "iOS".data
  else "Unknown".data

/-- JS line terminators, the characters a non-dotAll `.` never matches. -/
def isLineTerm (c : Char) : Bool :=
  c == '\n' || c == '\r' || c.toNat == 8232 || c.toNat == 8233

/-- `noLineTerm l` : the string contains no JS line terminator. -/
def noLineTerm (l : List Char) : Bool := l.all fun c => !isLineTerm c

/-- The lookahead body `.*mobi` on an already-lowercased string: `mobi`
must occur at some position reachable without crossing a line terminator
(`.` does not match line terminators). -/
def mobiInLine : List Char → Bool
  | [] => false
  | c :: cs => startsWith (c :: cs) "mobi".data || (!isLineTerm c && mobiInLine cs)

/-- The alternative `android(?!.*mobi)` of the tablet regex, on an
already-lowercased string: some occurrence of `android` (7 characters)
after which the negative lookahead `.*mobi` fails. -/
def androidNoMobi : List Char → Bool
  | [] => false
  | c :: cs =>
    (startsWith (c :: cs) "android".data && !mobiInLine ((c :: cs).drop 7))
      || androidNoMobi cs

/-- Case folding for the `/i` flag; the patterns involved are ASCII, so
folding the subject string to lowercase is equivalent. -/
def lowerStr (s : List Char) : List Char := s.map Char.toLower

/-- The literal alternatives `tablet|ipad|playbook|silk` of the tablet
regex, applied to an already-lowercased string. -/
def tabletMarkers (l : List Char) : Bool :=
  containsSub l "tablet".data || containsSub l "ipad".data
    || containsSub l "playbook".data || containsSub l "silk".data

/-- The test `/(tablet|ipad|playbook|silk)|(android(?!.*mobi))/i.test(ua)`
(metadata.ts line 59). -/
def tabletTest (ua : List Char) : Bool :=
  tabletMarkers (lowerStr ua) || androidNoMobi (lowerStr ua)

/-- The literal alternatives of the case-sensitive mobile regex
`Mobile|Android|iP(hone|od)|IEMobile|BlackBerry|Kindle|Silk-Accelerated|(hpw|web)OS|Opera M(obi|ini)`. -/
def mobileMarkers : List (List Char) :=
  ["Mobile".data, "Android".data, "iPhone".data, "iPod".data, "IEMobile".data,
   "BlackBerry".data, "Kindle".data, "Silk-Accelerated".data, "hpwOS".data,
   "webOS".data, "Opera Mobi".data, "Opera Mini".data]

/-- The test of the mobile regex (metadata.ts line 60): some alternative
occurs in the user agent, with exact case. -/
def mobileTest (ua : List Char) : Bool :=
  mobileMarkers.any fun m => containsSub ua m

/-- The `'desktop' | 'mobile' | 'tablet'` union of the TS interface. -/
inductive DeviceType where
  | desktop
  | mobile
  | tablet
deriving DecidableEq, Repr

/-- `getDeviceType` (metadata.ts lines 58-62): tablet pattern first, then
mobile pattern, default desktop. -/
def getDeviceType (ua : List Char) : DeviceType :=
  if tabletTest ua then .tablet
  else if mobileTest ua then .mobile
  else .desktop

/-- `getTimeOfDay` (metadata.ts lines 68-73) as a function of the local
hour `now.getHours()`. -/
def getTimeOfDay (hour : Nat) : List Char :=
  if 5 ≤ hour ∧ hour < 12 then "Morning".data
  else if 12 ≤ hour ∧ hour < 17 then "Afternoon".data
  else if 17 ≤ hour ∧ hour < 21 then "Evening".data
  else "Night".data

/-- A JS value as far as this flow can observe one: `undefined`, `null`,
or a string.  `undefVal` is what reading an absent property yields. -/
inductive JsVal where
  | undefVal
  | nullV
  | str (s : List Char)
deriving DecidableEq, Repr

/-- A JS object with its own enumerable properties in insertion order. -/
abbrev JsObj := List (List Char × JsVal)

/-- Property-existence check (`k in o`). -/
def hasKey (o : JsObj) (k : List Char) : Bool := o.any fun p => p.1 == k

/-- Property read `o[k]`: the first binding of `k`, `undefined` when absent. -/
def objGet (o : JsObj) (k : List Char) : JsVal :=
  match o.find? (fun p => p.1 == k) with
  | some p => p.2
  | none => .undefVal

/-- JS object spread `\x7b...a, ...b\x7d`: the keys of `a` in order with
`b`'s value whenever `b` also has the key, then the keys only `b` has,
in `b`'s order.  Spread copies every own enumerable property of `b`,
including those whose value is `undefined`. -/
def spreadObj (a b : JsObj) : JsObj :=
  (a.map fun p => if hasKey b p.1 then (p.1, objGet b p.1) else p)
    ++ b.filter fun p => !hasKey a p.1

/-- Everything the geolocation code can observe of the outside world:
the fetch promise rejects (network error), or it resolves with a
response carrying an HTTP status and a body that either fails to parse
as JSON (`none`) or parses to an object.  The source never reads the
status; it is carried so that service-error responses are expressible. -/
inductive FetchOutcome where
  | reject
  | resolve (status : Nat) (body : Option JsObj)

/-- The two ways the awaited calls inside `getGeolocation`'s `try` throw. -/
inductive JsError where
  | fetchFailed
  | parseFailed
deriving DecidableEq, Repr

/-- The object literal `getGeolocation` returns on the success path
(metadata.ts lines 118-122): keys `country`, `city`, `countryCode`
bound to the body's `country_name`, `city`, `country_code` reads
(each read yields `undefined` when the body lacks the field). -/
def geoRecord (data : JsObj) : JsObj :=
  [("country".data, objGet data "country_name".data),
   ("city".data, objGet data "city".data),
   ("countryCode".data, objGet data "country_code".data)]

/-- The body of `getGeolocation`'s `try` block (metadata.ts lines 116-122):
propagates a rejection of `fetch` or of `response.json()` as an error,
otherwise builds the record of `geoRecord`. -/
def geoFetchParse : FetchOutcome → Except JsError JsObj
  | .reject => .error .fetchFailed
  | .resolve _ none => .error .parseFailed
  | .resolve _ (some data) => .ok (geoRecord data)

/-- `getGeolocation` (metadata.ts lines 114-127): the `try` body's result,
with every thrown error caught, logged through `console.error` and masked
by the empty object.  The first component is the value handed to the
caller (an `Except` so that "no exception propagates" is a statement);
the second is the diagnostic log channel. -/
def getGeolocation (o : FetchOutcome) : Except JsError JsObj × List (List Char) :=
  match geoFetchParse o with
  | .ok v => (.ok v, [])
  | .error _ => (.ok [], ["Failed to get geolocation:".data])

/-- Truthiness of an optional string under `||`. -/
def jsTruthy : Option (List Char) → Bool
  | none => false
  | some s => !s.isEmpty

/-- The ambient browser state `collectTechnicalMetadata` reads. -/
structure Env where
  ua : List Char
  screenW : Nat
  screenH : Nat
  innerW : Nat
  innerH : Nat
  timezone : List Char
  language : List Char
  referrer : List Char
  href : List Char
  isoTime : List Char
  day : Fin 7
  hour : Nat
  cookieEnabled : Bool
  doNotTrack : Option (List Char)
  hasConnection : Bool
  connEffectiveType : Option (List Char)
  connType : Option (List Char)

/-- `getConnectionType` (metadata.ts lines 76-79):
`connection?.effectiveType || connection?.type || undefValined`. -/
def getConnectionType (e : Env) : Option (List Char) :=
  if e.hasConnection then
    if jsTruthy e.connEffectiveType then e.connEffectiveType
    else if jsTruthy e.connType then e.connType
    else none
  else none

/-- The `days` array of metadata.ts line 66. -/
def days : List (List Char) :=
  ["Sunday".data, "Monday".data, "Tuesday".data, "Wednesday".data,
   "Thursday".data, "Friday".data, "Saturday".data]

/-- `days[now.getDay()]`. -/
def dayName (d : Fin 7) : List Char := days.get ⟨d.val, d.isLt⟩

/-- Decimal rendering used by the template literals `w x h`. -/
def natChars (n : Nat) : List Char := (Nat.repr n).data

structure BrowserInfo where
  name : List Char
  version : List Char
  userAgent : List Char
deriving DecidableEq, Repr

structure DeviceInfo where
  typ : DeviceType
  os : List Char
  screenResolution : List Char
  viewportSize : List Char
deriving DecidableEq, Repr

structure SessionInfo where
  referrer : List Char
  landingPage : List Char
  timestamp : List Char
  dayOfWeek : List Char
  timeOfDay : List Char
deriving DecidableEq, Repr

structure TechInfo where
  jsEnabled : Bool
  cookiesEnabled : Bool
  doNotTrack : Bool
  connectionType : Option (List Char)
deriving DecidableEq, Repr

/-- The TechnicalMetadata interface; `location` is kept as a JS object
because the submission handler spreads enrichment keys into it. -/
structure TechnicalMetadata where
  browser : BrowserInfo
  device : DeviceInfo
  location : JsObj
  session : SessionInfo
  technical : TechInfo
deriving DecidableEq, Repr

/-- `collectTechnicalMetadata` (metadata.ts lines 34-111): the synchronous
capture.  The synchronous `location` group sets exactly the keys
`timezone` and `language`. -/
def collectTechnicalMetadata (e : Env) : TechnicalMetadata :=
  { browser :=
      { name := (getBrowser e.ua).1
        version := (getBrowser e.ua).2
        userAgent := e.ua }
    device :=
      { typ := getDeviceType e.ua
        os := getOS e.ua
        screenResolution := natChars e.screenW ++ "x".data ++ natChars e.screenH
        viewportSize := natChars e.innerW ++ "x".data ++ natChars e.innerH }
    location :=
      [("timezone".data, .str e.timezone), ("language".data, .str e.language)]
    session :=
      { referrer := if e.referrer.isEmpty then "Direct".data else e.referrer
        landingPage := e.href
        timestamp := e.isoTime
        dayOfWeek := dayName e.day
        timeOfDay := getTimeOfDay e.hour }
    technical :=
      { jsEnabled := true
        cookiesEnabled := e.cookieEnabled
        doNotTrack := e.doNotTrack == some "1".data
        connectionType := getConnectionType e } }

/-- The merge in `handleSubmit` (App.tsx lines 27-33):
`\x7b...technicalData, location: \x7b...technicalData.location, ...geoData\x7d\x7d`. -/
def mergeMetadata (td : TechnicalMetadata) (geo : JsObj) : TechnicalMetadata :=
  { td with location := spreadObj td.location geo }

/-- What claim C4 asserts of a merged record built from the synchronous
capture on environment `e` and an enrichment result `g`: every
synchronous group survives unchanged, the synchronous `location` keys
keep their values, each enrichment key present in `g` arrives in the
merged location with `g`'s value, and each enrichment key absent from
`g` is absent from the merged location (hence in particular never
`null` and never overriding anything). -/
def mergeClaim (e : Env) (g : JsObj) : Prop :=
  (mergeMetadata (collectTechnicalMetadata e) g).browser
      = (collectTechnicalMetadata e).browser
  ∧ (mergeMetadata (collectTechnicalMetadata e) g).device
      = (collectTechnicalMetadata e).device
  ∧ (mergeMetadata (collectTechnicalMetadata e) g).session
      = (collectTechnicalMetadata e).session
  ∧ (mergeMetadata (collectTechnicalMetadata e) g).technical
      = (collectTechnicalMetadata e).technical
  ∧ objGet (mergeMetadata (collectTechnicalMetadata e) g).location "timezone".data
      = JsVal.str e.timezone
  ∧ objGet (mergeMetadata (collectTechnicalMetadata e) g).location "language".data
      = JsVal.str e.language
  ∧ (∀ k, k = "country".data ∨ k = "city".data ∨ k = "countryCode".data →
      (hasKey g k = true →
        hasKey (mergeMetadata (collectTechnicalMetadata e) g).location k = true
        ∧ objGet (mergeMetadata (collectTechnicalMetadata e) g).location k = objGet g k)
      ∧ (hasKey g k = false →
        hasKey (mergeMetadata (collectTechnicalMetadata e) g).location k = false
        ∧ objGet (mergeMetadata (collectTechnicalMetadata e) g).location k = JsVal.undefVal))

/-- A concrete environment used to instantiate hypothetical theorems. -/
def envA : Env :=
  { ua := "Mozilla/5.0 Chrome/119 Safari/537".data
    screenW := 1920, screenH := 1080, innerW := 1200, innerH := 800
    timezone := "Africa/Accra".data
    language := "en-GB".data
    referrer := []
    href := "https://example.test/".data
    isoTime := "2026-10-11T12:00:00.000Z".data
    day := 3, hour := 12
    cookieEnabled := true
    doNotTrack := none
    hasConnection := false
    connEffectiveType := none
    connType := none }

end Codegrey

namespace Codegrey

/-! ### Helper lemmas about the string primitives -/

theorem containsSub_nil_pat (l : List Char) : containsSub l [] = true := by
  cases l <;> simp [containsSub, startsWith]

theorem startsWith_append_of {a b p : List Char} (h : startsWith a p = true) :
    startsWith (a ++ b) p = true := by
  induction p generalizing a with
  | nil => simp [startsWith]
  | cons q ps ih =>
    cases a with
    | nil => simp [startsWith] at h
    | cons c cs =>
      simp only [List.cons_append, startsWith, Bool.and_eq_true] at h ⊢
      exact ⟨h.1, ih h.2⟩

theorem containsSub_append_left {a b p : List Char} (h : containsSub a p = true) :
    containsSub (a ++ b) p = true := by
  induction a with
  | nil =>
    simp only [containsSub, List.isEmpty_iff] at h
    subst h
    exact containsSub_nil_pat b
  | cons c cs ih =>
    simp only [containsSub, Bool.or_eq_true] at h
    rcases h with h | h
    · simp only [List.cons_append, containsSub, Bool.or_eq_true]
      exact Or.inl (startsWith_append_of h)
    · simp only [List.cons_append, containsSub, Bool.or_eq_true]
      exact Or.inr (ih h)

theorem containsSub_cons_of {cs p : List Char} (c : Char) (h : containsSub cs p = true) :
    containsSub (c :: cs) p = true := by
  simp [containsSub, h]

theorem containsSub_drop {p : List Char} :
    ∀ (n : Nat) (l : List Char), containsSub (l.drop n) p = true → containsSub l p = true := by
  intro n l
  induction l generalizing n with
  | nil => simp
  | cons c cs ih =>
    cases n with
    | zero => exact fun h => h
    | succ m =>
      intro h
      exact containsSub_cons_of c (ih m h)

theorem mobiInLine_contains {s : List Char} (h : mobiInLine s = true) :
    containsSub s "mobi".data = true := by
  induction s with
  | nil => simp [mobiInLine] at h
  | cons c cs ih =>
    simp only [mobiInLine, Bool.or_eq_true, Bool.and_eq_true] at h
    rcases h with h | ⟨_, h⟩
    · simp [containsSub, h]
    · exact containsSub_cons_of c (ih h)

theorem androidNoMobi_of :
    ∀ (l : List Char), containsSub l "android".data = true →
      containsSub l "mobi".data = false → androidNoMobi l = true := by
  intro l
  induction l with
  | nil => intro h _; simp [containsSub] at h
  | cons c cs ih =>
    intro ha hm
    simp only [containsSub, Bool.or_eq_true] at ha
    simp only [containsSub, Bool.or_eq_false_iff] at hm
    simp only [androidNoMobi, Bool.or_eq_true]
    rcases ha with ha | ha
    · left
      have hml : mobiInLine ((c :: cs).drop 7) = false := by
        cases hq : mobiInLine ((c :: cs).drop 7) with
        | false => rfl
        | true =>
          have h1 := mobiInLine_contains hq
          have h2 := containsSub_drop 7 (c :: cs) h1
          simp only [containsSub, hm.1, hm.2, Bool.or_self] at h2
          exact absurd h2 (by decide)
      rw [ha, hml]
      rfl
    · right
      exact ih ha hm.2

theorem startsWith_append_long {m : List Char} :
    ∀ (l p : List Char), startsWith (l ++ m) p = true → l.length < p.length →
      startsWith m (p.drop l.length) = true := by
  intro l
  induction l with
  | nil => intro p h _; simpa using h
  | cons c cs ih =>
    intro p h hlen
    cases p with
    | nil => simp at hlen
    | cons q ps =>
      simp only [List.cons_append, startsWith, Bool.and_eq_true] at h
      have hl : cs.length < ps.length := by
        simp only [List.length_cons] at hlen
        omega
      simpa [List.drop_succ_cons] using ih ps h.2 hl

theorem mobiInLine_append :
    ∀ (l : List Char), noLineTerm l = true → mobiInLine (l ++ "mobi".data) = true := by
  intro l
  induction l with
  | nil => intro _; decide
  | cons c cs ih =>
    intro h
    simp only [noLineTerm, List.all_cons, Bool.and_eq_true] at h
    simp only [List.cons_append, mobiInLine, Bool.or_eq_true, Bool.and_eq_true]
    exact Or.inr ⟨h.1, ih h.2⟩

theorem noLineTerm_drop {l : List Char} (n : Nat) (h : noLineTerm l = true) :
    noLineTerm (l.drop n) = true := by
  simp only [noLineTerm, List.all_eq_true] at h ⊢
  intro x hx
  exact h x (List.drop_subset n l hx)

theorem drop_append_of_le {α : Type} :
    ∀ (n : Nat) (a b : List α), n ≤ a.length → (a ++ b).drop n = a.drop n ++ b
  | 0, _, _, _ => rfl
  | n + 1, [], _, h => by simp at h
  | n + 1, c :: cs, b, h => by
    simp only [List.cons_append, List.drop_succ_cons]
    exact drop_append_of_le n cs b (by simpa using h)

theorem androidNoMobi_append_mobi :
    ∀ (l : List Char), noLineTerm l = true → androidNoMobi (l ++ "mobi".data) = false := by
  intro l
  induction l with
  | nil => intro _; decide
  | cons c cs ih =>
    intro h
    have hcs : noLineTerm cs = true := by
      simp only [noLineTerm, List.all_cons, Bool.and_eq_true] at h
      exact h.2
    simp only [List.cons_append, androidNoMobi, Bool.or_eq_false_iff]
    refine ⟨?_, ?_⟩
    · show (startsWith ((c :: cs) ++ "mobi".data) "android".data &&
        !mobiInLine (((c :: cs) ++ "mobi".data).drop 7)) = false
      by_cases hlen : 7 ≤ (c :: cs).length
      · have hd : ((c :: cs) ++ "mobi".data).drop 7 = (c :: cs).drop 7 ++ "mobi".data :=
          drop_append_of_le 7 (c :: cs) _ hlen
        have hml : mobiInLine ((c :: cs).drop 7 ++ "mobi".data) = true :=
          mobiInLine_append _ (noLineTerm_drop 7 h)
        rw [hd, hml]
        exact Bool.and_false _
      · have hsw : startsWith ((c :: cs) ++ "mobi".data) "android".data = false := by
          cases hq : startsWith ((c :: cs) ++ "mobi".data) "android".data with
          | false => rfl
          | true =>
            have h1 := startsWith_append_long (c :: cs) "android".data hq
              (by simp at hlen ⊢; omega)
            have h2 : ∀ k, k < 7 →
                startsWith "mobi".data ("android".data.drop k) = false := by decide
            have h3 := h2 (c :: cs).length (by simp at hlen ⊢; omega)
            rw [h1] at h3
            exact absurd h3 (by decide)
        rw [hsw]
        exact Bool.false_and _
    · exact ih hcs

theorem startsWith_pat_pre {p q : List Char} :
    ∀ (s : List Char), startsWith s (p ++ q) = true → startsWith s p = true := by
  induction p with
  | nil => intro s _; cases s <;> simp [startsWith]
  | cons a ps ih =>
    intro s h
    cases s with
    | nil => simp [List.cons_append, startsWith] at h
    | cons c cs =>
      simp only [List.cons_append, startsWith, Bool.and_eq_true] at h ⊢
      exact ⟨h.1, ih cs h.2⟩

theorem containsSub_pat_pre {p q : List Char} :
    ∀ (s : List Char), containsSub s (p ++ q) = true → containsSub s p = true := by
  intro s
  induction s with
  | nil =>
    intro h
    simp only [containsSub, List.isEmpty_iff, List.append_eq_nil] at h ⊢
    exact h.1
  | cons c cs ih =>
    intro h
    simp only [containsSub, Bool.or_eq_true] at h ⊢
    rcases h with h | h
    · exact Or.inl (startsWith_pat_pre _ h)
    · exact Or.inr (ih h)

theorem objGet_not_hasKey {o : JsObj} {k : List Char} (h : hasKey o k = false) :
    objGet o k = JsVal.undefVal := by
  induction o with
  | nil => rfl
  | cons p ps ih =>
    simp only [hasKey, List.any_cons, Bool.or_eq_false_iff] at h
    simp only [objGet, List.find?_cons, h.1]
    exact ih (by simp [hasKey, h.2])

theorem not_windows_nt10 {ua : List Char} (hw : containsSub ua "Windows".data = false) :
    containsSub ua "Windows NT 10".data = false := by
  cases hq : containsSub ua "Windows NT 10".data with
  | false => rfl
  | true =>
    have h := containsSub_pat_pre (p := "Windows".data) (q := " NT 10".data) ua
      (by rw [show ("Windows".data ++ " NT 10".data) = "Windows NT 10".data from by decide]
          exact hq)
    rw [h] at hw
    exact absurd hw (by decide)

end Codegrey

namespace Codegrey

/-! ### The claims -/

/-- Claim C1 (corrected), counterexample: the claim quantifies over every
user-agent containing both `Chrome` and `Safari`, but first-match-wins
starts with the Firefox and Edg markers, so a string containing `Firefox`
as well is classified as Firefox, not Chrome. -/
theorem chrome_precedence_counterexample :
    containsSub "Firefox/1 Chrome/2 Safari/3".data "Chrome".data = true ∧
    containsSub "Firefox/1 Chrome/2 Safari/3".data "Safari".data = true ∧
    (getBrowser "Firefox/1 Chrome/2 Safari/3".data).1 ≠ "Chrome".data := by
  decide

/-- Claim C1 (corrected), amended: a user-agent containing both `Chrome`
and `Safari` and neither of the earlier markers `Firefox` and `Edg` is
classified as Chrome; and every user-agent containing `Chrome` — with no
further condition — is never classified as Safari, because the Safari
branch is only reached after the Chrome test failed. -/
theorem chrome_precedence :
    (∀ ua, containsSub ua "Chrome".data = true →
      containsSub ua "Safari".data = true →
      containsSub ua "Firefox".data = false →
      containsSub ua "Edg".data = false →
      (getBrowser ua).1 = "Chrome".data) ∧
    (∀ ua, containsSub ua "Chrome".data = true →
      (getBrowser ua).1 ≠ "Safari".data) := by
  constructor
  · intro ua hc hs hf he
    simp [getBrowser, hf, he, hc]
  · intro ua hc
    unfold getBrowser
    split_ifs with h1 h2 <;>
      first
        | exact show "Firefox".data ≠ "Safari".data by decide
        | exact show "Edge".data ≠ "Safari".data by decide
        | exact show "Chrome".data ≠ "Safari".data by decide

/-- Witness for C1: a Chrome-like user-agent with both tokens present and
no Firefox or Edg marker is classified as Chrome, and in particular not
as Safari. -/
theorem chrome_precedence_witness :
    containsSub "Mozilla/5.0 Chrome/119 Safari/537".data "Chrome".data = true ∧
    containsSub "Mozilla/5.0 Chrome/119 Safari/537".data "Safari".data = true ∧
    (getBrowser "Mozilla/5.0 Chrome/119 Safari/537".data).1 = "Chrome".data ∧
    (getBrowser "Mozilla/5.0 Chrome/119 Safari/537".data).1 ≠ "Safari".data :=
  ⟨by decide, by decide,
    chrome_precedence.1 _ (by decide) (by decide) (by decide) (by decide),
    chrome_precedence.2 _ (by decide)⟩

/-- Claim C2 (corrected), counterexample: an all-lowercase `android`
user-agent matches the case-insensitive tablet test (no `mobi` follows),
but appending `Mobi` yields desktop, not mobile: the appended string
defeats the tablet lookahead while the case-sensitive mobile pattern
matches neither lowercase `android` nor bare `Mobi`. -/
theorem android_mobi_counterexample :
    containsSub (lowerStr "android".data) "android".data = true ∧
    containsSub (lowerStr "android".data) "mobi".data = false ∧
    getDeviceType "android".data = DeviceType.tablet ∧
    getDeviceType ("android".data ++ "Mobi".data) = DeviceType.desktop ∧
    getDeviceType ("android".data ++ "Mobi".data) ≠ DeviceType.mobile := by
  decide

/-- Claim C2 (corrected), amended: a user-agent matching `android`
case-insensitively with no `mobi` token anywhere is classified tablet;
and appending `Mobi` flips the classification to mobile provided the
user-agent carries the case-exact `Android` marker (the mobile pattern
is case-sensitive), contains no line terminator (the lookahead `.*mobi`
cannot cross one), and the appended string matches none of the explicit
tablet/ipad/playbook/silk markers. -/
theorem android_tablet_mobile :
    (∀ ua, containsSub (lowerStr ua) "android".data = true →
      containsSub (lowerStr ua) "mobi".data = false →
      getDeviceType ua = DeviceType.tablet) ∧
    (∀ ua, containsSub ua "Android".data = true →
      noLineTerm (lowerStr ua) = true →
      tabletMarkers (lowerStr (ua ++ "Mobi".data)) = false →
      getDeviceType (ua ++ "Mobi".data) = DeviceType.mobile) := by
  constructor
  · intro ua h1 h2
    have ht : tabletTest ua = true := by
      have hand := androidNoMobi_of (lowerStr ua) h1 h2
      simp [tabletTest, hand]
    simp [getDeviceType, ht]
  · intro ua hA hT hM
    have hlit : List.map Char.toLower "Mobi".data = "mobi".data := by decide
    have hlow : lowerStr (ua ++ "Mobi".data) = lowerStr ua ++ "mobi".data := by
      simp only [lowerStr, List.map_append, hlit]
    have htab : tabletTest (ua ++ "Mobi".data) = false := by
      simp only [tabletTest, Bool.or_eq_false_iff]
      refine ⟨hM, ?_⟩
      rw [hlow]
      exact androidNoMobi_append_mobi _ hT
    have hmob : mobileTest (ua ++ "Mobi".data) = true := by
      have hcontains : containsSub (ua ++ "Mobi".data) "Android".data = true :=
        containsSub_append_left hA
      simp only [mobileTest, List.any_eq_true]
      exact ⟨"Android".data, by decide, hcontains⟩
    simp [getDeviceType, htab, hmob]

/-- Witness for C2: a realistic Android user-agent is tablet without the
`Mobi` token and mobile once it is appended. -/
theorem android_tablet_mobile_witness :
    getDeviceType "Mozilla (Linux; Android 10)".data = DeviceType.tablet ∧
    getDeviceType ("Mozilla (Linux; Android 10)".data ++ "Mobi".data) = DeviceType.mobile :=
  ⟨android_tablet_mobile.1 _ (by decide) (by decide),
   android_tablet_mobile.2 _ (by decide) (by decide) (by decide)⟩

/-- Claim C3 (corrected), counterexample: a service error (an HTTP 500
response) whose body still parses as JSON is not detected by the code
(the status is never inspected), so the returned enrichment record is
the three-key record with undefined values, not the empty object the
claim requires for every failure class. -/
theorem geolocation_service_error :
    (getGeolocation (FetchOutcome.resolve 500 (some []))).1 =
      Except.ok [("country".data, JsVal.undefVal), ("city".data, JsVal.undefVal),
        ("countryCode".data, JsVal.undefVal)] ∧
    [("country".data, JsVal.undefVal), ("city".data, JsVal.undefVal),
        ("countryCode".data, JsVal.undefVal)] ≠ ([] : JsObj) :=
  ⟨rfl, by decide⟩

/-- Claim C3 (corrected), amended: when the request throws or the body
fails to parse as JSON, `getGeolocation` returns the empty object and
reports the failure only on the diagnostic log channel; no outcome
whatsoever makes it propagate an error to the caller.  (A service error
whose body is valid JSON is not detected and takes the success path.) -/
theorem geolocation_masks_failures :
    (∀ o, ∃ v, (getGeolocation o).1 = Except.ok v) ∧
    getGeolocation FetchOutcome.reject =
      (Except.ok [], ["Failed to get geolocation:".data]) ∧
    (∀ st, getGeolocation (FetchOutcome.resolve st none) =
      (Except.ok [], ["Failed to get geolocation:".data])) := by
  refine ⟨?_, rfl, fun st => rfl⟩
  intro o
  rcases o with _ | ⟨st, _ | d⟩
  · exact ⟨[], rfl⟩
  · exact ⟨[], rfl⟩
  · exact ⟨geoRecord d, rfl⟩

/-- Claim C4 (confirmed): for every environment, every enrichment result
the geolocation operation can return merges into the synchronous record
without touching any synchronous field: the four other groups are
unchanged, `timezone` and `language` keep their values (the key sets
are disjoint), every enrichment key present in the result appears in the
merged location with the enrichment value, and every enrichment key
absent from the result is absent from the merged location — never null,
never a replaced default. -/
theorem merge_disjoint (e : Env) (o : FetchOutcome) (g : JsObj)
    (h : (getGeolocation o).1 = Except.ok g) : mergeClaim e g := by
  rcases o with _ | ⟨st, _ | d⟩ <;>
    simp only [getGeolocation, geoFetchParse, Except.ok.injEq] at h <;>
    subst h <;>
    refine ⟨rfl, rfl, rfl, rfl, rfl, rfl, ?_⟩ <;>
    intro k hk <;>
    rcases hk with rfl | rfl | rfl
  · exact ⟨fun hh => Bool.noConfusion (show false = true from hh), fun _ => ⟨rfl, rfl⟩⟩
  · exact ⟨fun hh => Bool.noConfusion (show false = true from hh), fun _ => ⟨rfl, rfl⟩⟩
  · exact ⟨fun hh => Bool.noConfusion (show false = true from hh), fun _ => ⟨rfl, rfl⟩⟩
  · exact ⟨fun hh => Bool.noConfusion (show false = true from hh), fun _ => ⟨rfl, rfl⟩⟩
  · exact ⟨fun hh => Bool.noConfusion (show false = true from hh), fun _ => ⟨rfl, rfl⟩⟩
  · exact ⟨fun hh => Bool.noConfusion (show false = true from hh), fun _ => ⟨rfl, rfl⟩⟩
  · exact ⟨fun _ => ⟨rfl, rfl⟩, fun hh => Bool.noConfusion (show true = false from hh)⟩
  · exact ⟨fun _ => ⟨rfl, rfl⟩, fun hh => Bool.noConfusion (show true = false from hh)⟩
  · exact ⟨fun _ => ⟨rfl, rfl⟩, fun hh => Bool.noConfusion (show true = false from hh)⟩

/-- Witness for C4: the merge claim instantiated with a concrete
environment and the empty enrichment record of a rejected fetch. -/
theorem merge_disjoint_witness :
    (getGeolocation FetchOutcome.reject).1 = Except.ok [] ∧ mergeClaim envA [] :=
  ⟨rfl, merge_disjoint envA FetchOutcome.reject [] rfl⟩

/-- Claim C5 (confirmed): the day-part function realizes the four
half-open buckets — Morning on [5,12), Afternoon on [12,17), Evening on
[17,21), Night everywhere else — and in particular maps the hours
0,4,5,11,12,16,17,20,21,23 to Night, Night, Morning, Morning,
Afternoon, Afternoon, Evening, Evening, Night, Night. -/
theorem timeOfDay_buckets :
    (∀ h : Nat,
      (getTimeOfDay h = "Morning".data ↔ 5 ≤ h ∧ h < 12) ∧
      (getTimeOfDay h = "Afternoon".data ↔ 12 ≤ h ∧ h < 17) ∧
      (getTimeOfDay h = "Evening".data ↔ 17 ≤ h ∧ h < 21) ∧
      (getTimeOfDay h = "Night".data ↔ h < 5 ∨ 21 ≤ h)) ∧
    (getTimeOfDay 0 = "Night".data ∧ getTimeOfDay 4 = "Night".data ∧
     getTimeOfDay 5 = "Morning".data ∧ getTimeOfDay 11 = "Morning".data ∧
     getTimeOfDay 12 = "Afternoon".data ∧ getTimeOfDay 16 = "Afternoon".data ∧
     getTimeOfDay 17 = "Evening".data ∧ getTimeOfDay 20 = "Evening".data ∧
     getTimeOfDay 21 = "Night".data ∧ getTimeOfDay 23 = "Night".data) := by
  constructor
  · intro h
    unfold getTimeOfDay
    split_ifs with h1 h2 h3 <;>
      refine ⟨⟨fun hx => ?_, fun hx => ?_⟩, ⟨fun hx => ?_, fun hx => ?_⟩,
        ⟨fun hx => ?_, fun hx => ?_⟩, ⟨fun hx => ?_, fun hx => ?_⟩⟩ <;>
      first
        | rfl
        | omega
        | exact absurd hx (by decide)
  · decide

/-- Claim C6 (confirmed): the empty user-agent yields browser
`Unknown`/`unknown`, OS `Unknown` and device desktop; more generally,
any user-agent matching none of the browser markers, none of the OS
markers, or neither device regex gets the same silent defaults (the
classifiers are pure functions of the string: unlike the enrichment
path they have no log channel, so no diagnostic can be emitted). -/
theorem unknown_defaults :
    (getBrowser [] = ("Unknown".data, "unknown".data) ∧
      getOS [] = "Unknown".data ∧ getDeviceType [] = DeviceType.desktop) ∧
    (∀ ua, containsSub ua "Firefox".data = false → containsSub ua "Edg".data = false →
      containsSub ua "Chrome".data = false → containsSub ua "Safari".data = false →
      getBrowser ua = ("Unknown".data, "unknown".data)) ∧
    (∀ ua, containsSub ua "Windows".data = false →
      containsSub ua "Mac OS X".data = false → containsSub ua "Linux".data = false →
      containsSub ua "Android".data = false → containsSub ua "iOS".data = false →
      containsSub ua "iPhone".data = false → containsSub ua "iPad".data = false →
      getOS ua = "Unknown".data) ∧
    (∀ ua, tabletTest ua = false → mobileTest ua = false →
      getDeviceType ua = DeviceType.desktop) := by
  refine ⟨by decide, ?_, ?_, ?_⟩
  · intro ua h1 h2 h3 h4
    simp [getBrowser, h1, h2, h3, h4]
  · intro ua h1 h2 h3 h4 h5 h6 h7
    simp [getOS, not_windows_nt10 h1, h1, h2, h3, h4, h5, h6, h7]
  · intro ua h1 h2
    simp [getDeviceType, h1, h2]

/-- Claim C7 (confirmed): a Macintosh user-agent carrying the token
`Mac OS X 10_15` is labelled `macOS 10.15` — the version is extracted
and its underscore normalized to a period — both for a realistic
Macintosh user-agent and for the bare token itself. -/
theorem macos_version_normalization :
    containsSub "Mozilla/5.0 (Macintosh; Intel Mac OS X 10_15_7) AppleWebKit/537.36".data
        "Mac OS X 10_15".data = true ∧
    getOS "Mozilla/5.0 (Macintosh; Intel Mac OS X 10_15_7) AppleWebKit/537.36".data
        = "macOS 10.15".data ∧
    getOS "Mac OS X 10_15".data = "macOS 10.15".data := by
  decide

/-- Claim C8 (corrected), counterexample: the claim quantifies over every
user-agent containing both `Linux` and `Android`, but the Windows checks
run first, so a string also containing `Windows` is labelled Windows,
not Linux. -/
theorem os_order_counterexample :
    containsSub "Windows Linux Android".data "Linux".data = true ∧
    containsSub "Windows Linux Android".data "Android".data = true ∧
    getOS "Windows Linux Android".data = "Windows".data ∧
    getOS "Windows Linux Android".data ≠ "Linux".data := by
  decide

/-- Claim C8 (corrected), amended: under the fixed first-match-wins order
(Windows NT 10, Windows, Mac OS X, Linux, Android, iOS family), a
user-agent containing `Linux` and `Android` but no earlier marker
(`Windows`, `Mac OS X`) is labelled Linux; and one containing
`Mac OS X` together with `iPhone` or `iPad` but not `Windows` gets the
macOS label, never `iOS`. -/
theorem os_order_precedence :
    (∀ ua, containsSub ua "Linux".data = true → containsSub ua "Android".data = true →
      containsSub ua "Windows".data = false → containsSub ua "Mac OS X".data = false →
      getOS ua = "Linux".data) ∧
    (∀ ua, containsSub ua "Mac OS X".data = true →
      (containsSub ua "iPhone".data = true ∨ containsSub ua "iPad".data = true) →
      containsSub ua "Windows".data = false →
      startsWith (getOS ua) "macOS ".data = true ∧ getOS ua ≠ "iOS".data) := by
  constructor
  · intro ua hl ha hw hm
    simp [getOS, not_windows_nt10 hw, hw, hm, hl]
  · intro ua hm hip hw
    have hgos : getOS ua =
        "macOS ".data ++ ((findMacVer ua).map replaceFirstUnderscore).getD [] := by
      simp [getOS, not_windows_nt10 hw, hw, hm]
    refine ⟨by rw [hgos]; exact startsWith_append_of (by decide), ?_⟩
    rw [hgos]
    intro he
    have hlen := congrArg List.length he
    rw [List.length_append] at hlen
    have h6 : ("macOS ".data).length = 6 := by decide
    have h3 : ("iOS".data).length = 3 := by decide
    rw [h6, h3] at hlen
    omega

/-- Witness for C8: a Linux-plus-Android user-agent is labelled Linux,
and an iPhone user-agent carrying the `Mac OS X` token gets the macOS
label. -/
theorem os_order_witness :
    getOS "Mozilla/5.0 (X11; Linux x86_64; Android 13)".data = "Linux".data ∧
    startsWith (getOS "Mozilla/5.0 (iPhone; CPU iPhone OS 17_0 like Mac OS X)".data)
      "macOS ".data = true :=
  ⟨os_order_precedence.1 _ (by decide) (by decide) (by decide) (by decide),
   (os_order_precedence.2 _ (by decide) (Or.inl (by decide)) (by decide)).1⟩

/-- Claim C9 (confirmed): on every successful fetch-and-parse the
operation returns the record with all three keys `country`, `city`,
`countryCode` present, bound to the body's `country_name`, `city`,
`country_code` values, with no log entry; a field missing from the body
leaves its key present with an undefined value — absent fields are never
filtered out on the success path. -/
theorem geolocation_success_shape (st : Nat) (data : JsObj) :
    getGeolocation (FetchOutcome.resolve st (some data)) =
      (Except.ok (geoRecord data), []) ∧
    hasKey (geoRecord data) "country".data = true ∧
    hasKey (geoRecord data) "city".data = true ∧
    hasKey (geoRecord data) "countryCode".data = true ∧
    objGet (geoRecord data) "country".data = objGet data "country_name".data ∧
    objGet (geoRecord data) "city".data = objGet data "city".data ∧
    objGet (geoRecord data) "countryCode".data = objGet data "country_code".data ∧
    (hasKey data "country_name".data = false →
      objGet (geoRecord data) "country".data = JsVal.undefVal) ∧
    (hasKey data "city".data = false →
      objGet (geoRecord data) "city".data = JsVal.undefVal) ∧
    (hasKey data "country_code".data = false →
      objGet (geoRecord data) "countryCode".data = JsVal.undefVal) :=
  ⟨rfl, rfl, rfl, rfl, rfl, rfl, rfl,
   fun h => objGet_not_hasKey (o := data) h, fun h => objGet_not_hasKey (o := data) h,
   fun h => objGet_not_hasKey (o := data) h⟩

/-- Claim C10 (confirmed): the tablet regex is case-insensitive while the
mobile regex is case-sensitive, so the all-lowercase user-agent
`android 9; mobi` fails both — the tablet lookahead sees `mobi`, and
the mobile alternatives `Android`/`Mobile` do not match lowercase — and
the classification falls through to desktop. -/
theorem lowercase_android_desktop :
    tabletTest "android 9; mobi".data = false ∧
    mobileTest "android 9; mobi".data = false ∧
    getDeviceType "android 9; mobi".data = DeviceType.desktop := by
  decide

end Codegrey
